import Mathlib

/-!
Shallow embedding of `scripts/python_learning_editor.py` (PythonLearningEditor).

The program is a tkinter learning editor.  We embed the pure logic of its
methods as Lean functions; tkinter widget state (text buffer, console, quiz
index, timer handles) becomes explicit state records, user dialogs become
`Option` parameters (None = the dialog was cancelled / returned an empty
answer), and the host interpreter's `exec` becomes an oracle parameter
`run : String → ExecOutcome` describing how CPython executes a given code
string.
-/

namespace PythonLearningEditor

/-! ## Execution engine (`_execute_code`, source lines 590-608)

`exec(code, {"__name__": "__main__"}, local_env)` runs under
`redirect_stdout(console_output)` / `redirect_stderr(console_error)`.
An `ExecOutcome` records what the host interpreter did with a code string:
either it completed normally having written `out` to stdout and `err` to
stderr, or it raised an exception (derived from `Exception`, the class the
source's `except Exception as exc:` boundary catches; Python's non-`Exception`
`BaseException`s are control-flow signals, not errors) with message `msg`
after having written `out` / `err`. -/

inductive ExecOutcome where
  | ok (out err : String)
  | exn (out err msg : String)
deriving DecidableEq

/-- `console_output.getvalue()` at line 600: everything user code wrote to
stdout before completing or failing. -/
def execOutput : ExecOutcome → String
  | .ok out _ => out
  | .exn out _ _ => out

/-- `console_error.getvalue()` at line 601: everything user code wrote to
stderr, with the handler's `console_error.write(f"Error: {exc}\n")`
(line 598) appended when the execution raised. -/
def execErrors : ExecOutcome → String
  | .ok _ err => err
  | .exn _ err msg => err ++ ("Error: " ++ msg ++ "\n")

/-- `_execute_code` (lines 590-608): run the code through the host
interpreter oracle, then append captured stdout (if non-empty) and captured
error text (if non-empty) to the console widget, modelled as the console's
text content. -/
def execute_code (run : String → ExecOutcome) (code : String) (console : String) : String :=
  let result := run code
  let output := execOutput result
  let errors := execErrors result
  let console := if output ≠ "" then console ++ output else console
  if errors ≠ "" then console ++ errors else console

/-! ## Quiz (`QUIZ_QUESTIONS` lines 141-157, `_check_quiz` lines 420-428) -/

structure QuizQuestion where
  prompt : String
  answer : String
  explanation : String
deriving DecidableEq

def QUIZ_QUESTIONS : List QuizQuestion :=
  [ { prompt := "What keyword starts a function definition?",
      answer := "def",
      explanation := "Functions begin with the `def` keyword followed by the name." },
    { prompt := "Which built-in converts text to an integer?",
      answer := "int",
      explanation := "`int(value)` parses a string or number into an integer." },
    { prompt := "What statement lets you loop while a condition is true?",
      answer := "while",
      explanation := "Use `while condition:` to run a block until the condition fails." } ]

/-- Python `str.lower()`: lower-case every character (the strings compared
here are ASCII). -/
def py_lower (s : String) : String := ⟨s.data.map Char.toLower⟩

/-- Python `str.strip()`: remove leading and trailing whitespace. -/
def py_strip (s : String) : String :=
  ⟨((s.data.dropWhile Char.isWhitespace).reverse.dropWhile Char.isWhitespace).reverse⟩

/-- `self.QUIZ_QUESTIONS[self._quiz_index]`.  Python tuple indexing raises
out of range; every reachable index is in range (theorem
`quiz_index_in_range`), where the default is never consulted. -/
def quiz_question_at (idx : Nat) : QuizQuestion :=
  QUIZ_QUESTIONS.getD idx { prompt := "", answer := "", explanation := "" }

/-- `_check_quiz` (lines 420-428): normalise the entry text with
`.strip().lower()`, compare against `question.answer.lower()`; on a match
advance the index modulo `len(self.QUIZ_QUESTIONS)`.  Returns the new index
and the feedback label text. -/
def check_quiz (idx : Nat) (entry : String) : Nat × String :=
  let question := quiz_question_at idx
  let answer := py_lower (py_strip entry)
  if answer = py_lower question.answer then
    ((idx + 1) % QUIZ_QUESTIONS.length, "✅ Correct! " ++ question.explanation)
  else
    (idx, "❌ Not quite. " ++ question.explanation)

/-- The quiz index after a sequence of answer submissions, starting from the
initial `self._quiz_index = 0` (line 236). -/
def quiz_index_after (answers : List String) : Nat :=
  answers.foldl (fun idx a => (check_quiz idx a).1) 0

/-! ## Autocomplete (`AUTOCOMPLETE_SUGGESTIONS` lines 57-81,
`_show_autocomplete` lines 431-463) -/

/-- `keyword.kwlist` of the host CPython: the reserved keywords of the
language, in the standard library's order. -/
def python_kwlist : List String :=
  ["False", "None", "True", "and", "as", "assert", "async", "await", "break",
   "class", "continue", "def", "del", "elif", "else", "except", "finally",
   "for", "from", "global", "if", "import", "in", "is", "lambda", "nonlocal",
   "not", "or", "pass", "raise", "return", "try", "while", "with", "yield"]

/-- The extra literal set united with `keyword.kwlist` at lines 59-80. -/
def extra_suggestions : List String :=
  ["print", "input", "range", "len", "enumerate", "list", "dict", "tuple",
   "set", "int", "float", "str", "open", "with", "for", "while", "def",
   "class", "import", "from"]

/-- Python string `<`: lexicographic comparison of code points. -/
def lexLt : List Char → List Char → Bool
  | [], [] => false
  | [], _ :: _ => true
  | _ :: _, [] => false
  | a :: as, b :: bs => if a < b then true else if b < a then false else lexLt as bs

def py_str_lt (a b : String) : Bool := lexLt a.data b.data

/-- Sorted insertion that drops duplicates, used to realise Python's
`sorted(set(...))`. -/
def insert_sorted (x : String) : List String → List String
  | [] => [x]
  | y :: ys =>
    if x = y then y :: ys
    else if py_str_lt x y then x :: y :: ys
    else y :: insert_sorted x ys

/-- `AUTOCOMPLETE_SUGGESTIONS = sorted(set(keyword.kwlist) | {...})`
(lines 57-81): the distinct members of the union in Python's sort order. -/
def AUTOCOMPLETE_SUGGESTIONS : List String :=
  (python_kwlist ++ extra_suggestions).foldr insert_sorted []

/-- Python `item.startswith(word)`. -/
def py_startswith (s pre : String) : Bool := pre.data.isPrefixOf s.data

/-- Line 436: `[item for item in self.AUTOCOMPLETE_SUGGESTIONS if
item.startswith(word)]`. -/
def autocomplete_matches (word : String) : List String :=
  AUTOCOMPLETE_SUGGESTIONS.filter (fun item => py_startswith item word)

/-- The state `_show_autocomplete` can touch: the document text (never
written by it) and the live suggestion popup.  The popup windows themselves
are UI plumbing the spec scopes out; the document is the editor state the
claim is about. -/
structure AcState where
  buffer : String
  popup : Option (List String)
deriving DecidableEq

/-- `_show_autocomplete` (lines 431-463): destroy any existing popup, filter
the suggestion set by the current word; with no matches (or no cursor bbox)
return `"break"` without opening anything, otherwise open the popup listing
the matches.  Every path returns `"break"`, suppressing the default key
behaviour. -/
def show_autocomplete (word : String) (bbox_visible : Bool) (st : AcState) : String × AcState :=
  let st := { st with popup := none }
  let found := autocomplete_matches word
  if found.isEmpty then ("break", st)
  else if !bbox_visible then ("break", st)
  else ("break", { st with popup := some found })

/-! ## Syntax highlighting (`_highlight_syntax` keyword loop, lines 349-357)

For each `kw` in `keyword.kwlist` the source repeatedly calls
`self.text.search(rf"\m{kw}\M", start, stopindex=END, regexp=True)`,
tagging each match `[start, start+len(kw))` and resuming the search right
after it.  Tcl's `\m` / `\M` constraints make a match exactly an occurrence
of `kw` delimited by word boundaries, where a word character is an
alphanumeric or underscore.  We model the buffer as a character list and
positions as character offsets; `scanAux` is the search loop, carrying the
character preceding the current position for the left-boundary test. -/

/-- Tcl regexp word character (`[[:alnum:]_]`). -/
def isWordChar (c : Char) : Bool := c.isAlphanum || c == '_'

/-- A word boundary sits against `o`: either no character (text edge) or a
non-word character. -/
def boundaryOpt : Option Char → Bool
  | none => true
  | some c => !isWordChar c

/-- The keyword-search loop of `_highlight_syntax` for the keyword
`k :: ks`, scanning the suffix `text` that starts at absolute offset `i`,
with `prev` the character just before that suffix: returns the start
offsets the loop tags.  On a match the search resumes at `start = end`
(line 357), i.e. right after the matched keyword. -/
def scanAux (k : Char) (ks : List Char) (prev : Option Char) (text : List Char)
    (i : Nat) : List Nat :=
  match text with
  | [] => []
  | c :: rest =>
    if k == c && ks.isPrefixOf rest && boundaryOpt prev
        && boundaryOpt (rest.drop ks.length).head? then
      i :: scanAux k ks (some (ks.getLastD k)) (rest.drop ks.length) (i + 1 + ks.length)
    else
      scanAux k ks (some c) rest (i + 1)
termination_by text.length
decreasing_by
  · simp [List.length_drop]
    omega
  · simp

/-- The offsets tagged with the keyword tag for keyword `kw` over the whole
buffer: the loop starts at `"1.0"` (offset 0, no preceding character). -/
def find_keyword_spans (kw text : String) : List Nat :=
  match kw.data with
  | [] => []
  | k :: ks => scanAux k ks none text.data 0

/-- Offset `i` is a whole-word occurrence of `kw` in `text`: the keyword's
characters occur there, the previous character (if any) is not a word
character, and the character following the occurrence (if any) is not a
word character. -/
def wholeWordAt (kw text : List Char) (i : Nat) : Bool :=
  kw.isPrefixOf (text.drop i)
    && ((i == 0) || boundaryOpt text[i - 1]?)
    && boundaryOpt text[i + kw.length]?

/-! ## Helper lemmas -/

theorem string_eq_empty_of_length_eq_zero (s : String) (h : s.length = 0) : s = "" := by
  cases s with
  | mk data =>
    cases data with
    | nil => rfl
    | cons c cs => simp [String.length] at h

theorem string_append_ne_empty (s t : String) (h : t ≠ "") : s ++ t ≠ "" := by
  intro hst
  apply h
  have hl := congrArg String.length hst
  rw [String.length_append] at hl
  have h0 : ("" : String).length = 0 := rfl
  exact string_eq_empty_of_length_eq_zero t (by omega)

theorem execErrors_exn_ne_empty (out err msg : String) :
    execErrors (ExecOutcome.exn out err msg) ≠ "" :=
  string_append_ne_empty err _ (string_append_ne_empty _ "\n" (by decide))

/-- Shared characterisation of `_execute_code` when the interpreter raised:
the console receives the captured stdout (when non-empty) followed by the
captured stderr with the handler's `Error:` line appended. -/
theorem execute_code_exn (run : String → ExecOutcome) (code console out err msg : String)
    (h : run code = ExecOutcome.exn out err msg) :
    execute_code run code console =
      (if out ≠ "" then console ++ out else console) ++ (err ++ ("Error: " ++ msg ++ "\n")) := by
  have herr : err ++ ("Error: " ++ msg ++ "\n") ≠ "" := execErrors_exn_ne_empty out err msg
  simp only [execute_code, h, execOutput, execErrors]
  rw [if_pos herr]

theorem execute_code_exn_appends (run : String → ExecOutcome) (code console out err msg : String)
    (h : run code = ExecOutcome.exn out err msg) :
    ∃ tail, execute_code run code console = console ++ tail := by
  rw [execute_code_exn run code console out err msg h]
  by_cases ho : out = ""
  · exact ⟨err ++ ("Error: " ++ msg ++ "\n"), by simp [ho]⟩
  · exact ⟨out ++ (err ++ ("Error: " ++ msg ++ "\n")), by simp [ho, String.append_assoc]⟩

/-! ## Claim theorems: execution engine -/

/-- C1: any error raised during user-code execution is caught at the
`except Exception` boundary, formatted as the single line
`"Error: <message>\n"` appended to the captured error text, and routed to
the console as error text rather than propagating; `_execute_code` always
returns normally (the console is only ever appended to), so execution never
crashes the host process. -/
theorem execute_code_catches_errors (run : String → ExecOutcome)
    (code console out err msg : String)
    (h : run code = ExecOutcome.exn out err msg) :
    execErrors (run code) = err ++ ("Error: " ++ msg ++ "\n") ∧
    execute_code run code console =
      (if out ≠ "" then console ++ out else console) ++ (err ++ ("Error: " ++ msg ++ "\n")) ∧
    ∃ tail, execute_code run code console = console ++ tail :=
  ⟨by rw [h]; rfl, execute_code_exn run code console out err msg h,
    execute_code_exn_appends run code console out err msg h⟩

theorem execute_code_catches_errors_witness :
    execErrors ((fun _ : String => ExecOutcome.exn "" "" "boom") "1/0") =
      "" ++ ("Error: " ++ "boom" ++ "\n") ∧
    execute_code (fun _ : String => ExecOutcome.exn "" "" "boom") "1/0" "console" =
      (if ("" : String) ≠ "" then "console" ++ "" else "console") ++
        ("" ++ ("Error: " ++ "boom" ++ "\n")) ∧
    ∃ tail, execute_code (fun _ : String => ExecOutcome.exn "" "" "boom") "1/0" "console" =
      "console" ++ tail :=
  execute_code_catches_errors (fun _ => ExecOutcome.exn "" "" "boom") "1/0" "console"
    "" "" "boom" rfl

/-- C2, as stated, is false on the code: it demands that a failing program
appends no standard-output text and that the appended error text begins with
`"Error: "`.  CPython's `exec` on the program
`import sys\nprint('x')\nsys.stderr.write('w')\n1/0` writes `"x\n"` to
stdout and `"w"` to stderr before raising `ZeroDivisionError("division by
zero")`; `_execute_code` then inserts the captured `"x\n"` into the console
(line 604) and the error text is `"wError: division by zero\n"`, which does
not begin with `"Error: "`. -/
theorem execute_code_no_output_on_error_cex :
    ¬ (∀ (run : String → ExecOutcome) (code out err msg : String),
        run code = ExecOutcome.exn out err msg →
        execOutput (run code) = "" ∧
        ∃ rest, execErrors (run code) = "Error: " ++ rest) := by
  intro hclaim
  have h := hclaim (fun _ => ExecOutcome.exn "x\n" "w" "division by zero")
      "import sys\nprint('x')\nsys.stderr.write('w')\n1/0" "x\n" "w" "division by zero" rfl
  exact absurd h.1 (by decide)

/-- C2 (amended): executing `print('hi')` appends exactly `"hi\n"` to the
console and no error text.  For every program whose execution raises an
error, the console receives the stdout captured before the failure (possibly
empty) followed by the captured stderr with `"Error: <message>\n"` appended;
in particular, when the program wrote nothing to stdout or stderr before
failing, no standard-output text is appended and the appended error text
begins with `"Error: "`. -/
theorem execute_code_console_output (run : String → ExecOutcome) (console : String) :
    (run "print('hi')" = ExecOutcome.ok "hi\n" "" →
      execute_code run "print('hi')" console = console ++ "hi\n") ∧
    (∀ code out err msg, run code = ExecOutcome.exn out err msg →
      execute_code run code console =
        (if out ≠ "" then console ++ out else console) ++ (err ++ ("Error: " ++ msg ++ "\n")) ∧
      (out = "" → err = "" →
        execOutput (run code) = "" ∧
        (∃ rest, execErrors (run code) = "Error: " ++ rest) ∧
        execute_code run code console = console ++ ("Error: " ++ msg ++ "\n"))) := by
  constructor
  · intro h
    simp [execute_code, h, execOutput, execErrors]
  · intro code out err msg h
    refine ⟨execute_code_exn run code console out err msg h, ?_⟩
    intro ho he
    subst ho he
    refine ⟨by rw [h]; rfl, ⟨msg ++ "\n", by rw [h]; simp [execErrors, String.append_assoc]⟩, ?_⟩
    rw [execute_code_exn run code console "" "" msg h]
    simp

theorem execute_code_console_output_witness :
    execute_code (fun c => if c = "print('hi')" then ExecOutcome.ok "hi\n" ""
        else ExecOutcome.exn "" "" "boom") "print('hi')" "" = "" ++ "hi\n" ∧
    execute_code (fun c => if c = "print('hi')" then ExecOutcome.ok "hi\n" ""
        else ExecOutcome.exn "" "" "boom") "1/0" "" = "" ++ ("Error: " ++ "boom" ++ "\n") :=
  ⟨(execute_code_console_output
      (fun c => if c = "print('hi')" then ExecOutcome.ok "hi\n" "" else ExecOutcome.exn "" "" "boom")
      "").1 (by decide),
    (((execute_code_console_output
      (fun c => if c = "print('hi')" then ExecOutcome.ok "hi\n" "" else ExecOutcome.exn "" "" "boom")
      "").2 "1/0" "" "" "boom" (by decide)).2 rfl rfl).2.2⟩

/-! ## Claim theorems: quiz -/

/-- C3: for every in-range quiz index and submitted answer string, if the
answer after `.strip().lower()` equals the current question's answer
compared case-insensitively (both sides lowered), the index advances by one
modulo the question count; any other answer leaves the index unchanged; in
both cases the feedback text contains the question's explanation, which is
non-empty. -/
theorem check_quiz_spec (idx : Nat) (entry : String) (h : idx < QUIZ_QUESTIONS.length) :
    (py_lower (py_strip entry) = py_lower (quiz_question_at idx).answer →
      (check_quiz idx entry).1 = (idx + 1) % QUIZ_QUESTIONS.length) ∧
    (py_lower (py_strip entry) ≠ py_lower (quiz_question_at idx).answer →
      (check_quiz idx entry).1 = idx) ∧
    (∃ pre, (check_quiz idx entry).2 = pre ++ (quiz_question_at idx).explanation) ∧
    (quiz_question_at idx).explanation ≠ "" := by
  refine ⟨?_, ?_, ?_, ?_⟩
  · intro he
    simp [check_quiz, he]
  · intro he
    simp [check_quiz, he]
  · by_cases he : py_lower (py_strip entry) = py_lower (quiz_question_at idx).answer
    · exact ⟨"✅ Correct! ", by simp [check_quiz, he]⟩
    · exact ⟨"❌ Not quite. ", by simp [check_quiz, he]⟩
  · have h3 : idx < 3 := h
    interval_cases idx <;> decide

theorem check_quiz_spec_witness :
    0 < QUIZ_QUESTIONS.length ∧
    (check_quiz 0 " DEF ").1 = (0 + 1) % QUIZ_QUESTIONS.length ∧
    (check_quiz 0 "int").1 = 0 :=
  ⟨by decide, (check_quiz_spec 0 " DEF " (by decide)).1 (by decide),
    (check_quiz_spec 0 "int" (by decide)).2.1 (by decide)⟩

theorem check_quiz_fst_lt (idx : Nat) (a : String) (h : idx < QUIZ_QUESTIONS.length) :
    (check_quiz idx a).1 < QUIZ_QUESTIONS.length := by
  by_cases he : py_lower (py_strip a) = py_lower (quiz_question_at idx).answer
  · simp only [check_quiz, he, if_pos]
    exact Nat.mod_lt _ (by decide)
  · simp [check_quiz, he]
    exact h

theorem quiz_fold_lt (answers : List String) (idx : Nat) (h : idx < QUIZ_QUESTIONS.length) :
    answers.foldl (fun i a => (check_quiz i a).1) idx < QUIZ_QUESTIONS.length := by
  induction answers generalizing idx with
  | nil => exact h
  | cons a rest ih => exact ih _ (check_quiz_fst_lt idx a h)

/-- C10: starting from index 0, after any sequence of answer submissions the
quiz index is strictly below the question count (every change is an
increment modulo the count), so indexing `QUIZ_QUESTIONS` never goes out of
bounds. -/
theorem quiz_index_in_range (answers : List String) :
    quiz_index_after answers < QUIZ_QUESTIONS.length :=
  quiz_fold_lt answers 0 (by decide)

/-! ## File operations (lines 492-535)

The editor state gathers the text widget's content (`self.text.get("1.0",
"end-1c")`), the backing path `self.file_path`, the modified flag
`self.text.edit_modified()`, and the file system, modelled as an
association list from path to content (`Path.write_text` prepends, reading
takes the most recent write).  Dialogs become `Option` parameters:
`answer` is `messagebox.askyesnocancel` (`none` = Cancel), `save_as_name`
is `filedialog.asksaveasfilename` and `open_name` is
`filedialog.askopenfilename` (`none` = the dialog was cancelled, Python's
falsy empty string). -/

structure EditorState where
  buffer : String
  file_path : Option String
  modified : Bool
  fs : List (String × String)
deriving DecidableEq

/-- `Path.write_text(content, encoding="utf8")`: whole-file replace. -/
def fsWrite (fs : List (String × String)) (p content : String) : List (String × String) :=
  (p, content) :: fs

/-- `Path.read_text(encoding="utf8")`: `none` when the path does not exist
(Python raises `FileNotFoundError`, which no caller handles). -/
def fsRead (fs : List (String × String)) (p : String) : Option String :=
  (fs.find? (fun e => e.1 = p)).map (·.2)

/-- The shared tail of `save_file` (lines 517-519) once a backing path `p`
is known: write the buffer to `p` and clear the modified flag
(`messagebox.showinfo` has no state effect). -/
def save_to (s : EditorState) (p : String) : EditorState :=
  { s with fs := fsWrite s.fs p s.buffer, modified := false }

/-- `save_file_as` (lines 521-525): ask for a path; on cancel do nothing,
otherwise set `self.file_path` and call `save_file`, which now finds the
path set and takes the `save_to` branch (inlined here). -/
def save_file_as (s : EditorState) (save_as_name : Option String) : EditorState :=
  match save_as_name with
  | none => s
  | some name => save_to { s with file_path := some name } name

/-- `save_file` (lines 513-519): if no backing path is set, defer to
`save_file_as`; otherwise write to the known path. -/
def save_file (s : EditorState) (save_as_name : Option String) : EditorState :=
  match s.file_path with
  | none => save_file_as s save_as_name
  | some p => save_to s p

/-- `_confirm_unsaved_changes` (lines 527-535): when the buffer is modified,
ask save/discard/cancel; Cancel returns `False` leaving the state alone;
Yes first runs `save_file`.  Every `True` return clears the modified flag. -/
def confirm_unsaved_changes (s : EditorState) (answer : Option Bool)
    (save_as_name : Option String) : Bool × EditorState :=
  if s.modified then
    match answer with
    | none => (false, s)
    | some true =>
      let s := save_file s save_as_name
      (true, { s with modified := false })
    | some false => (true, { s with modified := false })
  else (true, { s with modified := false })

/-- `new_file` (lines 492-497): gated by `_confirm_unsaved_changes`; on
success clear the buffer, drop the backing path and clear the modified
flag. -/
def new_file (s : EditorState) (answer : Option Bool)
    (save_as_name : Option String) : EditorState :=
  let r := confirm_unsaved_changes s answer save_as_name
  if r.1 then { r.2 with buffer := "", file_path := none, modified := false }
  else r.2

/-- `open_file` (lines 499-511): gated by `_confirm_unsaved_changes`; then,
when a file was chosen, replace the buffer wholesale with the file's text
and record the path.  `none` models the unhandled `read_text` failure. -/
def open_file (s : EditorState) (answer : Option Bool) (save_as_name : Option String)
    (open_name : Option String) : Option EditorState :=
  let r := confirm_unsaved_changes s answer save_as_name
  if !r.1 then some r.2
  else
    match open_name with
    | none => some r.2
    | some p =>
      match fsRead r.2.fs p with
      | none => none
      | some content =>
        some { r.2 with buffer := content, file_path := some p, modified := false }

/-! ## Debounced highlight timer (lines 303-308 and 337-338)

`self.root.after` / `after_cancel` are modelled as a scheduler state: the
list of pending timer ids plus a fresh-id counter; `self._after_id` is the
editor's handle slot.  Three kinds of transition touch this state: the
keystroke-driven text change (`_on_text_change`, lines 303-308), the
delivery of a pending timer by the event loop, which runs
`_highlight_syntax` whose first statement clears the handle slot (line
338), and the direct synchronous calls `self._highlight_syntax()` from
`_insert_example` (line 411), `open_file` (line 509) and `run` (line 634),
which execute that same line 338 while no timer has been consumed or
cancelled. -/

structure TimerState where
  after_id : Option Nat
  pending : List Nat
  next_id : Nat
deriving DecidableEq

inductive TimerEvent where
  | keystroke
  | fire (t : Nat)
  | direct
deriving DecidableEq

/-- `_on_text_change` (lines 303-308): cancel the pending timer recorded in
the handle slot, if any, then schedule a fresh highlight pass and record its
handle. -/
def on_text_change (s : TimerState) : TimerState :=
  let pending :=
    match s.after_id with
    | some t => s.pending.erase t
    | none => s.pending
  { after_id := some s.next_id, pending := pending ++ [s.next_id], next_id := s.next_id + 1 }

/-- The event loop delivers pending timer `t`: the timer is consumed and the
scheduled `_highlight_syntax` runs, whose line 338 (`self._after_id = None`)
clears the handle slot.  Firing an id that is not pending is a no-op. -/
def highlight_fire (s : TimerState) (t : Nat) : TimerState :=
  if s.pending.contains t then
    { s with pending := s.pending.erase t, after_id := none }
  else s

/-- A direct call to `_highlight_syntax` (from `_insert_example` line 411,
`open_file` line 509 or `run` line 634): line 338 sets
`self._after_id = None`, clearing the handle slot, but no `after_cancel`
runs, so a timer scheduled earlier remains pending. -/
def highlight_direct (s : TimerState) : TimerState :=
  { s with after_id := none }

def timer_step (s : TimerState) : TimerEvent → TimerState
  | .keystroke => on_text_change s
  | .fire t => highlight_fire s t
  | .direct => highlight_direct s

/-- The timer state reached from start-up (`self._after_id = None`, line
169, no pending timers) through a sequence of events. -/
def timer_run (events : List TimerEvent) : TimerState :=
  events.foldl timer_step { after_id := none, pending := [], next_id := 0 }

/-! ## Helper lemmas: highlight scan -/

theorem getElem?_last_cons (k : Char) (ks : List Char) :
    (k :: ks)[ks.length]? = some (ks.getLastD k) := by
  induction ks generalizing k with
  | nil => rfl
  | cons a as ih =>
    rw [List.length_cons, List.getElem?_cons_succ, ih a, List.getLastD_cons]

theorem prefix_getElem? (pre l : List Char) (hp : pre.isPrefixOf l = true)
    (t : Nat) (ht : t < pre.length) : l[t]? = pre[t]? := by
  obtain ⟨tail, htail⟩ := List.isPrefixOf_iff_prefix.1 hp
  rw [← htail]
  exact List.getElem?_append_left ht

/-- Correctness of the keyword-search loop: provided every character of the
keyword `k :: ks` is a word character (true of all Python keywords), the
offsets collected when scanning the suffix of `text` starting at `i` are
exactly the whole-word occurrences at offsets `≥ i`.  The `prev` argument
is the character before offset `i`, matching the left-boundary context the
full-text regexp search would see. -/
theorem scanAux_mem (k : Char) (ks : List Char)
    (hw : ∀ c ∈ k :: ks, isWordChar c = true)
    (text : List Char) (i j : Nat) (hi : i ≤ text.length) :
    j ∈ scanAux k ks (if i = 0 then none else text[i - 1]?) (text.drop i) i ↔
      (i ≤ j ∧ wholeWordAt (k :: ks) text j = true) := by
  cases hd : text.drop i with
  | nil =>
    have hlen : text.length ≤ i := by
      have hl := congrArg List.length hd
      simp [List.length_drop] at hl
      omega
    simp only [scanAux, List.not_mem_nil, false_iff]
    rintro ⟨hij, hW⟩
    have hdropj : text.drop j = [] := List.drop_eq_nil_of_le (by omega)
    simp [wholeWordAt, hdropj, List.isPrefixOf] at hW
  | cons c rest =>
    have hlen : i < text.length := by
      have hl := congrArg List.length hd
      simp [List.length_drop] at hl
      omega
    have hci : text[i]? = some c := by
      have h0 := List.getElem?_drop text i 0
      rw [hd] at h0
      simpa using h0.symm
    have hrest : text.drop (i + 1) = rest := by
      have h1 := List.drop_drop 1 i text
      rw [hd] at h1
      simpa using h1.symm
    have hcond : (k == c && ks.isPrefixOf rest
        && boundaryOpt (if i = 0 then none else text[i - 1]?)
        && boundaryOpt (rest.drop ks.length).head?) = wholeWordAt (k :: ks) text i := by
      have hpre : (k :: ks).isPrefixOf (text.drop i) = (k == c && ks.isPrefixOf rest) := by
        rw [hd]
        rfl
      have hleft : boundaryOpt (if i = 0 then none else text[i - 1]?)
          = ((i == 0) || boundaryOpt text[i - 1]?) := by
        by_cases h0 : i = 0
        · subst h0
          simp [boundaryOpt]
        · have hb : (i == 0) = false := by simpa using h0
          rw [if_neg h0, hb, Bool.false_or]
      have hright : boundaryOpt (rest.drop ks.length).head?
          = boundaryOpt text[i + (k :: ks).length]? := by
        congr 1
        rw [List.head?_eq_getElem?, List.getElem?_drop, ← hrest, List.getElem?_drop]
        congr 1
        simp [List.length_cons]
        omega
      unfold wholeWordAt
      rw [hpre, ← hleft, ← hright]
    simp only [scanAux]
    rw [hcond]
    by_cases hWi : wholeWordAt (k :: ks) text i = true
    · rw [if_pos hWi]
      have hp : (k :: ks).isPrefixOf (text.drop i) = true := by
        unfold wholeWordAt at hWi
        simp only [Bool.and_eq_true] at hWi
        exact hWi.1.1
      have hplen : ks.length + 1 ≤ text.length - i := by
        have hle := (List.isPrefixOf_iff_prefix.1 hp).length_le
        simp [List.length_drop, List.length_cons] at hle
        omega
      have hchar : ∀ t, t ≤ ks.length → text[i + t]? = (k :: ks)[t]? := by
        intro t ht
        have h1 := prefix_getElem? (k :: ks) (text.drop i) hp t
          (by simp [List.length_cons]; omega)
        rw [List.getElem?_drop] at h1
        exact h1
      have hprev : text[i + ks.length]? = some (ks.getLastD k) := by
        rw [hchar ks.length (le_refl _), getElem?_last_cons]
      have hsuffix : rest.drop ks.length = text.drop (i + 1 + ks.length) := by
        rw [← hrest, List.drop_drop]
      have hif : (if i + 1 + ks.length = 0 then none else text[i + 1 + ks.length - 1]?)
          = some (ks.getLastD k) := by
        rw [if_neg (by omega)]
        have he : i + 1 + ks.length - 1 = i + ks.length := by omega
        rw [he, hprev]
      have ih := scanAux_mem k ks hw text (i + 1 + ks.length) j (by omega)
      rw [hif, ← hsuffix] at ih
      rw [List.mem_cons, ih]
      constructor
      · rintro (rfl | ⟨hij, hWj⟩)
        · exact ⟨le_refl _, hWi⟩
        · exact ⟨by omega, hWj⟩
      · rintro ⟨hij, hWj⟩
        by_cases hji : j = i
        · exact Or.inl hji
        refine Or.inr ⟨?_, hWj⟩
        by_contra hlt
        push_neg at hlt
        have hj1 : i < j := by omega
        have ht : j - 1 - i ≤ ks.length := by omega
        have hcj : text[j - 1]? = (k :: ks)[j - 1 - i]? := by
          have h2 := hchar (j - 1 - i) ht
          have heq : i + (j - 1 - i) = j - 1 := by omega
          rw [heq] at h2
          exact h2
        have hlt2 : j - 1 - i < (k :: ks).length := by
          simp [List.length_cons]
          omega
        obtain ⟨d, hder⟩ : ∃ d, (k :: ks)[j - 1 - i]? = some d := by
          rw [List.getElem?_eq_getElem hlt2]
          exact ⟨_, rfl⟩
        have hdmem : d ∈ k :: ks := List.getElem?_mem hder
        have hword := hw d hdmem
        unfold wholeWordAt at hWj
        simp only [Bool.and_eq_true] at hWj
        have hL : ((j == 0) || boundaryOpt text[j - 1]?) = true := hWj.1.2
        have hj0 : (j == 0) = false := by
          simpa using (by omega : j ≠ 0)
        rw [hj0, Bool.false_or, hcj, hder] at hL
        simp [boundaryOpt, hword] at hL
    · rw [if_neg hWi]
      have ih := scanAux_mem k ks hw text (i + 1) j (by omega)
      have hif : (if i + 1 = 0 then none else text[i + 1 - 1]?) = some c := by
        rw [if_neg (by omega)]
        simpa using hci
      rw [hif, hrest] at ih
      rw [ih]
      have hWiF : wholeWordAt (k :: ks) text i = false := by
        cases hb : wholeWordAt (k :: ks) text i
        · rfl
        · exact absurd hb hWi
      constructor
      · rintro ⟨h1, h2⟩
        exact ⟨by omega, h2⟩
      · rintro ⟨h1, h2⟩
        refine ⟨?_, h2⟩
        rcases Nat.lt_or_ge i j with h | h
        · omega
        · exfalso
          have hji : j = i := by omega
          rw [hji, hWiF] at h2
          cases h2
termination_by text.length - i
decreasing_by
  · omega
  · omega

/-! ## Claim theorems: syntax highlighting -/

/-- C6: for every Python keyword and every buffer text, the highlight
pass's keyword scan tags exactly the whole-word occurrences of the keyword:
an offset is tagged if and only if the keyword occurs there delimited by
word boundaries, so occurrences inside longer identifiers (such as `for`
inside `format`) are never tagged. -/
theorem highlight_tags_whole_words (kw : String) (hkw : kw ∈ python_kwlist)
    (text : String) (i : Nat) :
    i ∈ find_keyword_spans kw text ↔ wholeWordAt kw.data text.data i = true := by
  have hprops : kw.data ≠ [] ∧ ∀ c ∈ kw.data, isWordChar c = true := by
    have hall : ∀ s ∈ python_kwlist, s.data ≠ [] ∧ ∀ c ∈ s.data, isWordChar c = true := by
      decide
    exact hall kw hkw
  cases hk : kw.data with
  | nil => exact absurd hk hprops.1
  | cons k ks =>
    have hw : ∀ c ∈ k :: ks, isWordChar c = true := hk ▸ hprops.2
    have h := scanAux_mem k ks hw text.data 0 i (Nat.zero_le _)
    rw [if_pos rfl, List.drop_zero] at h
    unfold find_keyword_spans
    rw [hk, h]
    simp [Nat.zero_le]

theorem highlight_tags_whole_words_witness :
    "for" ∈ python_kwlist ∧
    (11 ∈ find_keyword_spans "for" "the format for x" ↔
      wholeWordAt "for".data "the format for x".data 11 = true) ∧
    (4 ∈ find_keyword_spans "for" "the format for x" ↔
      wholeWordAt "for".data "the format for x".data 4 = true) :=
  ⟨by decide, highlight_tags_whole_words "for" (by decide) "the format for x" 11,
    highlight_tags_whole_words "for" (by decide) "the format for x" 4⟩

/-- Concrete check: in `"the format for x"` the scan tags the whole-word
`for` at offset 11 and nothing else; in particular the `for` inside
`format` (offset 4) is not tagged. -/
theorem find_keyword_spans_example :
    find_keyword_spans "for" "the format for x" = [11] := by
  simp [find_keyword_spans, scanAux, isWordChar, boundaryOpt]

/-! ## Claim theorems: autocomplete -/

/-- C7: the autocomplete trigger computes exactly the subset of the static
suggestion set whose entries start with the current word; for prefix
`"pri"` the result contains `"print"` and every entry of it starts with
`"pri"`; when the subset is empty the document is left unchanged while the
default key behaviour is still suppressed (`"break"` is returned). -/
theorem autocomplete_matches_spec :
    (∀ word item, item ∈ autocomplete_matches word ↔
      item ∈ AUTOCOMPLETE_SUGGESTIONS ∧ py_startswith item word = true) ∧
    "print" ∈ autocomplete_matches "pri" ∧
    (∀ item ∈ autocomplete_matches "pri", py_startswith item "pri" = true) ∧
    (∀ word b st, autocomplete_matches word = [] →
      (show_autocomplete word b st).1 = "break" ∧
      (show_autocomplete word b st).2.buffer = st.buffer) := by
  refine ⟨?_, ?_, ?_, ?_⟩
  · intro word item
    simp [autocomplete_matches, List.mem_filter]
  · decide
  · intro item him
    exact (List.mem_filter.1 him).2
  · intro word b st hempty
    simp [show_autocomplete, hempty]

theorem autocomplete_matches_spec_witness :
    autocomplete_matches "zzz" = [] ∧
    (show_autocomplete "zzz" true { buffer := "doc", popup := none }).1 = "break" ∧
    (show_autocomplete "zzz" true { buffer := "doc", popup := none }).2.buffer = "doc" := by
  have h := autocomplete_matches_spec.2.2.2 "zzz" true
    { buffer := "doc", popup := none } (by decide)
  exact ⟨by decide, h.1, h.2⟩

/-! ## Claim theorems: file operations -/

/-- C4: invoking `new_file` with a modified buffer and answering Cancel in
the unsaved-changes prompt aborts the action entirely: buffer content and
backing file path are unchanged. -/
theorem new_file_cancel_preserves (s : EditorState) (save_as_name : Option String)
    (h : s.modified = true) :
    (new_file s none save_as_name).buffer = s.buffer ∧
    (new_file s none save_as_name).file_path = s.file_path := by
  simp [new_file, confirm_unsaved_changes, h]

theorem new_file_cancel_preserves_witness :
    (new_file { buffer := "buf", file_path := some "a.py", modified := true, fs := [] }
        none none).buffer = "buf" ∧
    (new_file { buffer := "buf", file_path := some "a.py", modified := true, fs := [] }
        none none).file_path = some "a.py" :=
  new_file_cancel_preserves
    { buffer := "buf", file_path := some "a.py", modified := true, fs := [] } none rfl

/-- C5: with a modified buffer and no backing path, choosing
save-then-proceed and then cancelling the save-as dialog still makes the
gate report success and clear the modified flag, without writing anywhere;
so `new_file` proceeds and the unsaved buffer content is discarded. -/
theorem gate_save_cancel_reports_success (s : EditorState)
    (h1 : s.modified = true) (h2 : s.file_path = none) :
    (confirm_unsaved_changes s (some true) none).1 = true ∧
    (confirm_unsaved_changes s (some true) none).2.modified = false ∧
    (confirm_unsaved_changes s (some true) none).2.fs = s.fs ∧
    (confirm_unsaved_changes s (some true) none).2.buffer = s.buffer ∧
    (new_file s (some true) none).buffer = "" ∧
    (new_file s (some true) none).fs = s.fs := by
  simp [confirm_unsaved_changes, new_file, save_file, save_file_as, h1, h2]

theorem gate_save_cancel_reports_success_witness :
    (confirm_unsaved_changes
        { buffer := "work", file_path := none, modified := true, fs := [] }
        (some true) none).1 = true ∧
    (confirm_unsaved_changes
        { buffer := "work", file_path := none, modified := true, fs := [] }
        (some true) none).2.modified = false ∧
    (confirm_unsaved_changes
        { buffer := "work", file_path := none, modified := true, fs := [] }
        (some true) none).2.fs = [] ∧
    (confirm_unsaved_changes
        { buffer := "work", file_path := none, modified := true, fs := [] }
        (some true) none).2.buffer = "work" ∧
    (new_file { buffer := "work", file_path := none, modified := true, fs := [] }
        (some true) none).buffer = "" ∧
    (new_file { buffer := "work", file_path := none, modified := true, fs := [] }
        (some true) none).fs = [] :=
  gate_save_cancel_reports_success
    { buffer := "work", file_path := none, modified := true, fs := [] } rfl rfl

/-- C8: saving buffer content `"x = 1\n"` to the backing path and then
opening that same path yields a buffer of exactly `"x = 1\n"`: the
save-then-open composition is the identity on that buffer content. -/
theorem save_open_round_trip (s : EditorState) (p : String) (save_as_name : Option String)
    (answer : Option Bool) (hpath : s.file_path = some p) (hbuf : s.buffer = "x = 1\n") :
    ∃ s', open_file (save_file s save_as_name) answer save_as_name (some p) = some s' ∧
      s'.buffer = "x = 1\n" := by
  refine ⟨{ buffer := "x = 1\n", file_path := some p, modified := false,
            fs := (p, "x = 1\n") :: s.fs }, ?_, rfl⟩
  simp [open_file, save_file, hpath, save_to, confirm_unsaved_changes, fsRead, fsWrite,
    List.find?, hbuf]

theorem save_open_round_trip_witness :
    ∃ s', open_file
        (save_file { buffer := "x = 1\n", file_path := some "f.py", modified := true, fs := [] }
          none)
        none none (some "f.py") = some s' ∧
      s'.buffer = "x = 1\n" :=
  save_open_round_trip
    { buffer := "x = 1\n", file_path := some "f.py", modified := true, fs := [] }
    "f.py" none none rfl rfl

/-! ## Claim theorems: debounced highlight timer -/

def timer_inv (s : TimerState) : Prop :=
  (∀ t, s.after_id = some t → s.pending = [t]) ∧ (s.after_id = none → s.pending = [])

theorem timer_inv_step (s : TimerState) (e : TimerEvent)
    (hne : e ≠ TimerEvent.direct) (h : timer_inv s) :
    timer_inv (timer_step s e) := by
  cases e with
  | direct => exact absurd rfl hne
  | keystroke =>
    refine ⟨?_, ?_⟩
    · intro t ht
      cases hid : s.after_id with
      | none =>
        have hp := h.2 hid
        simp [timer_step, on_text_change, hid, hp] at ht ⊢
        omega
      | some u =>
        have hp := h.1 u hid
        simp [timer_step, on_text_change, hid, hp] at ht ⊢
        omega
    · intro ht
      simp [timer_step, on_text_change] at ht
  | fire t =>
    by_cases hc : t ∈ s.pending
    · cases hid : s.after_id with
      | none =>
        have hp := h.2 hid
        rw [hp] at hc
        simp at hc
      | some u =>
        have hp := h.1 u hid
        have ht : t = u := by
          rw [hp] at hc
          simpa using hc
        refine ⟨?_, ?_⟩
        · intro v hv
          simp [timer_step, highlight_fire, hc] at hv
        · intro _
          simp [timer_step, highlight_fire, hc, hp, ht]
    · refine ⟨?_, ?_⟩
      · intro v hv
        simp [timer_step, highlight_fire, hc] at hv ⊢
        exact h.1 v hv
      · intro hv
        simp [timer_step, highlight_fire, hc] at hv ⊢
        exact h.2 hv

theorem timer_fold_inv (events : List TimerEvent) (s : TimerState)
    (hnd : TimerEvent.direct ∉ events) (h : timer_inv s) :
    timer_inv (events.foldl timer_step s) := by
  induction events generalizing s with
  | nil => exact h
  | cons e rest ih =>
    exact ih _ (fun hm => hnd (List.mem_cons_of_mem e hm))
      (timer_inv_step s e (fun he => hnd (he ▸ List.mem_cons_self e rest)) h)

/-- C9, as stated, is false on the code: `_highlight_syntax` is also called
directly (synchronously) from `_insert_example` (line 411), `open_file`
(line 509) and `run` (line 634); such a call executes line 338
(`self._after_id = None`), clearing the handle slot while the Tk timer
scheduled by an earlier keystroke stays pending.  The next keystroke then
finds the slot empty, skips `after_cancel` (line 306), and schedules a
second timer: after keystroke, direct call, keystroke, two highlight-pass
timers are pending at once. -/
theorem debounce_two_timers_cex :
    ¬ (∀ events : List TimerEvent, (timer_run events).pending.length ≤ 1) := by
  intro hclaim
  have h := hclaim [TimerEvent.keystroke, TimerEvent.direct, TimerEvent.keystroke]
  exact absurd h (by decide)

/-- C9 (amended): along any event sequence that contains no direct
`_highlight_syntax()` invocation — that is, the highlight pass runs only
through its timer — at most one highlight timer is pending: each
keystroke-driven text change cancels the handle it holds before scheduling
a new pass, and the handle slot is cleared when the pass fires, so the
handle always tracks the unique pending timer.  A direct invocation
(example insertion, file open, start-up) clears the handle slot while
leaving the scheduled timer pending, after which a keystroke schedules a
second one. -/
theorem debounce_at_most_one_pending (events : List TimerEvent)
    (hnd : TimerEvent.direct ∉ events) :
    (timer_run events).pending.length ≤ 1 ∧
    (∀ t, (timer_run events).after_id = some t → (timer_run events).pending = [t]) ∧
    ((timer_run events).after_id = none → (timer_run events).pending = []) := by
  have h0 : timer_inv { after_id := none, pending := [], next_id := 0 } := by
    constructor
    · intro t ht
      simp at ht
    · intro _
      rfl
  have h : timer_inv (timer_run events) := timer_fold_inv events _ hnd h0
  refine ⟨?_, h.1, h.2⟩
  cases hid : (timer_run events).after_id with
  | none => rw [h.2 hid]; simp
  | some t => rw [h.1 t hid]; simp

theorem debounce_at_most_one_pending_witness :
    TimerEvent.direct ∉ [TimerEvent.keystroke, TimerEvent.keystroke, TimerEvent.fire 1] ∧
    (timer_run [TimerEvent.keystroke, TimerEvent.keystroke, TimerEvent.fire 1]).pending.length
      ≤ 1 ∧
    (timer_run [TimerEvent.keystroke, TimerEvent.keystroke, TimerEvent.fire 1]).pending = [] :=
  ⟨by decide,
    (debounce_at_most_one_pending [TimerEvent.keystroke, TimerEvent.keystroke,
      TimerEvent.fire 1] (by decide)).1,
    (debounce_at_most_one_pending [TimerEvent.keystroke, TimerEvent.keystroke,
      TimerEvent.fire 1] (by decide)).2.2 (by decide)⟩

end PythonLearningEditor
